import Mathlib

/-!
Verification of the JIT compilation scheduling and compiled-artifact
lifecycle subsystem (HotSpot `nmethod` / `CompileBroker` excerpt).

The C++ sources are shallowly embedded: machine pointers and `uintptr_t`
values become `Nat` (bounded by `2 ^ 64` where it matters), `int`/`jint`
fields become `Int`, and the atomic compare-and-swap operations become pure
state-transformer functions (one function application models one successful
linearized atomic operation).
-/

namespace Nmethod

/-- Width in bits of `uintptr_t` on the 64-bit targets the code runs on. -/
def ptrBits : Nat := 64

/-- The 64-bit value of the C expression `~(uintptr_t)0x3`: all bits set
except the two least significant ones. -/
def notThreeMask : Nat := 2 ^ ptrBits - 4

/-- `nmethod.hpp`: states used for claiming nmethods during root processing. -/
def claim_weak_request_tag : Nat := 0

def claim_weak_done_tag : Nat := 1

def claim_strong_request_tag : Nat := 2

def claim_strong_done_tag : Nat := 3

/-- `nmethod::mark_link(nm, tag)`:
`(oops_do_mark_link*)(((uintptr_t)nm & ~0x3) | tag)`.
The nmethod pointer is modelled as the `Nat` value of its address. -/
def mark_link (nm tag : Nat) : Nat := (nm &&& notThreeMask) ||| tag

/-- `nmethod::extract_state(link)`: `(uint)((uintptr_t)link & 0x3)`. -/
def extract_state (link : Nat) : Nat := link &&& 3

/-- `nmethod::extract_nmethod(link)`: `(nmethod*)((uintptr_t)link & ~0x3)`. -/
def extract_nmethod (link : Nat) : Nat := link &&& notThreeMask

/-- `nmethod::oops_do_has_weak_request(next)`:
`extract_state(next) == claim_weak_request_tag`. -/
def oops_do_has_weak_request (next : Nat) : Bool :=
  extract_state next = claim_weak_request_tag

/-- `nmethod::oops_do_has_any_strong_state(next)`:
`extract_state(next) >= claim_strong_request_tag`. -/
def oops_do_has_any_strong_state (next : Nat) : Bool :=
  decide (claim_strong_request_tag ≤ extract_state next)

/-! Bit-level facts about the tag mask. -/

theorem land_three_eq_mod (x : Nat) : x &&& 3 = x % 4 := by
  have h3 : (3 : Nat) = 2 ^ 2 - 1 := by norm_num
  have h4 : (4 : Nat) = 2 ^ 2 := by norm_num
  apply Nat.eq_of_testBit_eq
  intro i
  rw [h3, h4, Nat.testBit_land, Nat.testBit_mod_two_pow,
    Nat.testBit_two_pow_sub_one, Bool.and_comm]

theorem testBit_notThreeMask (i : Nat) :
    notThreeMask.testBit i = (decide (2 ≤ i) && decide (i < 64)) := by
  have hmask : notThreeMask = (2 ^ 62 - 1) <<< 2 := by
    rw [Nat.shiftLeft_eq]
    norm_num [notThreeMask, ptrBits]
  rw [hmask, Nat.testBit_shiftLeft, Nat.testBit_two_pow_sub_one]
  rcases Nat.lt_or_ge i 2 with h | h
  · simp [Nat.not_le.mpr h, show ¬ i ≥ 2 from Nat.not_le.mpr h]
  · have : (i - 2 < 62) = (i < 64) := by
      apply propext; omega
    simp [h, this]

theorem testBit_small_of_mod_four (x i : Nat) (hx : x % 4 = 0) (hi : i < 2) :
    x.testBit i = false := by
  have h := Nat.testBit_mod_two_pow x 2 i
  rw [show (2 : Nat) ^ 2 = 4 by norm_num, hx] at h
  simp [Nat.zero_testBit, hi] at h
  exact h

/-- Clearing the two low bits of a 4-aligned pointer below `2 ^ 64` is the
identity. -/
theorem land_notThreeMask_self (nm : Nat) (halign : nm % 4 = 0)
    (hlt : nm < 2 ^ ptrBits) : nm &&& notThreeMask = nm := by
  apply Nat.eq_of_testBit_eq
  intro i
  rw [Nat.testBit_land, testBit_notThreeMask]
  rcases Nat.lt_or_ge i 2 with h2 | h2
  · simp [testBit_small_of_mod_four nm i halign h2, Nat.not_le.mpr h2]
  · rcases Nat.lt_or_ge i 64 with h64 | h64
    · simp [h2, h64]
    · have : nm.testBit i = false := by
        apply Nat.testBit_lt_two_pow
        calc nm < 2 ^ 64 := hlt
        _ ≤ 2 ^ i := Nat.pow_le_pow_right (by norm_num) h64
      simp [this]

theorem masked_mod_four (nm : Nat) : (nm &&& notThreeMask) % 4 = 0 := by
  rw [← land_three_eq_mod]
  apply Nat.eq_of_testBit_eq
  intro i
  rw [Nat.testBit_land, Nat.testBit_land, testBit_notThreeMask, Nat.zero_testBit]
  rcases Nat.lt_or_ge i 2 with h2 | h2
  · simp [Nat.not_le.mpr h2]
  · have htb : (3 : Nat).testBit i = false := by
      apply Nat.testBit_lt_two_pow
      calc (3 : Nat) < 2 ^ 2 := by norm_num
      _ ≤ 2 ^ i := Nat.pow_le_pow_right (by norm_num) h2
    simp [htb]

theorem masked_lt (nm : Nat) : nm &&& notThreeMask < 2 ^ ptrBits := by
  calc nm &&& notThreeMask ≤ notThreeMask := Nat.and_le_right
  _ < 2 ^ ptrBits := by norm_num [notThreeMask, ptrBits]

/-- Oring a tag smaller than 4 onto a value with cleared low bits, then
extracting the low two bits, recovers the tag. -/
theorem extract_state_mark_link (nm tag : Nat) (htag : tag ≤ 3) :
    extract_state (mark_link nm tag) = tag := by
  unfold extract_state mark_link
  rw [land_three_eq_mod, show (4 : Nat) = 2 ^ 2 by norm_num]
  apply Nat.eq_of_testBit_eq
  intro i
  rw [Nat.testBit_mod_two_pow, Nat.testBit_lor]
  rcases Nat.lt_or_ge i 2 with h2 | h2
  · rw [testBit_small_of_mod_four _ i (masked_mod_four nm) h2]
    simp [h2]
  · have htb : tag.testBit i = false := by
      apply Nat.testBit_lt_two_pow
      calc tag < 4 := by omega
      _ = 2 ^ 2 := by norm_num
      _ ≤ 2 ^ i := Nat.pow_le_pow_right (by norm_num) h2
    simp [Nat.not_lt.mpr h2, htb]

theorem extract_nmethod_mark_link (nm tag : Nat) (halign : nm % 4 = 0)
    (hlt : nm < 2 ^ ptrBits) (htag : tag ≤ 3) :
    extract_nmethod (mark_link nm tag) = nm := by
  unfold extract_nmethod mark_link
  apply Nat.eq_of_testBit_eq
  intro i
  rw [Nat.testBit_land, Nat.testBit_lor, testBit_notThreeMask]
  rcases Nat.lt_or_ge i 2 with h2 | h2
  · rw [testBit_small_of_mod_four nm i halign h2]
    simp [Nat.not_le.mpr h2]
  · have htb : tag.testBit i = false := by
      apply Nat.testBit_lt_two_pow
      calc tag < 4 := by omega
      _ = 2 ^ 2 := by norm_num
      _ ≤ 2 ^ i := Nat.pow_le_pow_right (by norm_num) h2
    rcases Nat.lt_or_ge i 64 with h64 | h64
    · rw [land_notThreeMask_self nm halign hlt]
      simp [h2, h64, htb]
    · have hnm : nm.testBit i = false := by
        apply Nat.testBit_lt_two_pow
        calc nm < 2 ^ 64 := hlt
        _ ≤ 2 ^ i := Nat.pow_le_pow_right (by norm_num) h64
      rw [land_notThreeMask_self nm halign hlt]
      simp [hnm, htb]

/-- C5: the tagged-pointer encoding of the root-scan state round-trips: for
every nmethod pointer `nm` aligned to 4 bytes (and representable as a 64-bit
address) and every tag among `claim_weak_request_tag`, `claim_weak_done_tag`,
`claim_strong_request_tag`, `claim_strong_done_tag`, we have
`extract_state (mark_link nm tag) = tag` and
`extract_nmethod (mark_link nm tag) = nm`, so the four protocol states and
the link pointer are stored without loss in one pointer-sized word. -/
theorem mark_link_roundtrip (nm tag : Nat) (halign : nm % 4 = 0)
    (hptr : nm < 2 ^ ptrBits)
    (htag : tag = claim_weak_request_tag ∨ tag = claim_weak_done_tag ∨
      tag = claim_strong_request_tag ∨ tag = claim_strong_done_tag) :
    extract_state (mark_link nm tag) = tag ∧
      extract_nmethod (mark_link nm tag) = nm := by
  have htag3 : tag ≤ 3 := by
    rcases htag with h | h | h | h <;>
      simp [h, claim_weak_request_tag, claim_weak_done_tag,
        claim_strong_request_tag, claim_strong_done_tag]
  exact ⟨extract_state_mark_link nm tag htag3,
    extract_nmethod_mark_link nm tag halign hptr htag3⟩

theorem mark_link_roundtrip_witness :
    (8 : Nat) % 4 = 0 ∧ (8 : Nat) < 2 ^ ptrBits ∧
      extract_state (mark_link 8 claim_strong_request_tag) =
        claim_strong_request_tag ∧
      extract_nmethod (mark_link 8 claim_strong_request_tag) = 8 := by
  have h := mark_link_roundtrip 8 claim_strong_request_tag (by norm_num)
    (by norm_num [ptrBits]) (Or.inr (Or.inr (Or.inl rfl)))
  exact ⟨by norm_num, by norm_num [ptrBits], h.1, h.2⟩

/-- C6: the numeric tag values respect the weak-before-strong lattice
(`claim_weak_request_tag < claim_weak_done_tag < claim_strong_request_tag <
claim_strong_done_tag`), and for every link value,
`oops_do_has_any_strong_state link` holds exactly when `extract_state link`
is `claim_strong_request_tag` or `claim_strong_done_tag`. -/
theorem claim_tag_lattice :
    (claim_weak_request_tag < claim_weak_done_tag ∧
      claim_weak_done_tag < claim_strong_request_tag ∧
      claim_strong_request_tag < claim_strong_done_tag) ∧
    ∀ link : Nat, oops_do_has_any_strong_state link = true ↔
      (extract_state link = claim_strong_request_tag ∨
        extract_state link = claim_strong_done_tag) := by
  refine ⟨by norm_num [claim_weak_request_tag, claim_weak_done_tag,
    claim_strong_request_tag, claim_strong_done_tag], fun link => ?_⟩
  have hlt : extract_state link < 4 := by
    unfold extract_state
    rw [land_three_eq_mod]
    exact Nat.mod_lt _ (by norm_num)
  unfold oops_do_has_any_strong_state
  simp only [decide_eq_true_eq]
  unfold claim_strong_request_tag claim_strong_done_tag
  omega

end Nmethod

namespace CompileBroker

/-- `CompileBroker::CompilerActivity` flag values (`compileBroker.hpp`). -/
def stop_compilation : Int := 0

def run_compilation : Int := 1

def shutdown_compilation : Int := 2

/-- The mutable static state of `CompileBroker` relevant to admission
control: the `_should_compile_new_jobs` activity flag, the
stopped/restarted statistics counters, the one-shot warning flag and the
`UseCompiler` global. -/
structure BrokerState where
  _should_compile_new_jobs : Int
  _total_compiler_stopped_count : Nat
  _total_compiler_restarted_count : Nat
  _print_compilation_warning : Int
  useCompiler : Bool
  deriving DecidableEq, Repr

/-- `CompileBroker::set_should_compile_new_jobs(jint new_state)`:
```
jint old = Atomic::cmpxchg(&_should_compile_new_jobs, 1-new_state, new_state);
bool success = (old == (1-new_state));
if (success) {
  if (new_state == run_compilation) { _total_compiler_restarted_count++; }
  else                              { _total_compiler_stopped_count++;   }
}
return success;
```
One application models one linearized execution of the call: the returned
`Bool` is `success`, the returned state is the broker state afterwards. -/
def set_should_compile_new_jobs (new_state : Int) (s : BrokerState) :
    Bool × BrokerState :=
  let old := s._should_compile_new_jobs
  if old = 1 - new_state then
    let s' := { s with _should_compile_new_jobs := new_state }
    if new_state = run_compilation then
      (true, { s' with _total_compiler_restarted_count :=
        s'._total_compiler_restarted_count + 1 })
    else
      (true, { s' with _total_compiler_stopped_count :=
        s'._total_compiler_stopped_count + 1 })
  else
    (false, s)

/-- `CompileBroker::disable_compilation_forever()`:
sets `UseCompiler = false` and exchanges `_should_compile_new_jobs` to
`shutdown_compilation` unconditionally. -/
def disable_compilation_forever (s : BrokerState) : BrokerState :=
  { s with
    useCompiler := false
    _should_compile_new_jobs := shutdown_compilation }

/-- `CompileBroker::is_compilation_disabled_forever()`. -/
def is_compilation_disabled_forever (s : BrokerState) : Bool :=
  s._should_compile_new_jobs = shutdown_compilation

/-- `CompileBroker::should_compile_new_jobs()`:
`UseCompiler && (_should_compile_new_jobs == run_compilation)`. -/
def should_compile_new_jobs (s : BrokerState) : Bool :=
  s.useCompiler && s._should_compile_new_jobs = run_compilation

/-- `CompileBroker::should_print_compiler_warning()`:
`jint old = Atomic::cmpxchg(&_print_compilation_warning, 0, 1);
 return old == 0;`. -/
def should_print_compiler_warning (s : BrokerState) : Bool × BrokerState :=
  if s._print_compilation_warning = 0 then
    (true, { s with _print_compilation_warning := 1 })
  else
    (false, s)

/-- Runs a sequence of `set_should_compile_new_jobs` calls (arguments in
order), collecting the returned booleans. -/
def run_set_calls : List Int → BrokerState → List Bool × BrokerState
  | [], s => ([], s)
  | a :: rest, s =>
    let (r, s') := set_should_compile_new_jobs a s
    let (rs, s'') := run_set_calls rest s'
    (r :: rs, s'')

/-- Runs `n` successive `should_print_compiler_warning()` calls. -/
def run_warning_calls : Nat → BrokerState → List Bool × BrokerState
  | 0, s => ([], s)
  | n + 1, s =>
    let (r, s') := should_print_compiler_warning s
    let (rs, s'') := run_warning_calls n s'
    (r :: rs, s'')

theorem set_call_from_shutdown (a : Int) (s : BrokerState)
    (hs : s._should_compile_new_jobs = shutdown_compilation)
    (ha : a = run_compilation ∨ a = stop_compilation) :
    set_should_compile_new_jobs a s = (false, s) := by
  unfold set_should_compile_new_jobs
  rcases ha with h | h <;>
    simp [h, hs, run_compilation, stop_compilation, shutdown_compilation]

/-- C3: the admission state `shutdown_compilation` is terminal: once
`_should_compile_new_jobs` holds `shutdown_compilation`, any sequence of
`set_should_compile_new_jobs` calls with `run_compilation` or
`stop_compilation` arguments returns `false` at every call, leaves the
broker state (in particular the activity flag) unchanged, and
`is_compilation_disabled_forever()` stays `true`. -/
theorem shutdown_is_terminal (s : BrokerState)
    (hs : s._should_compile_new_jobs = shutdown_compilation)
    (args : List Int)
    (hargs : ∀ a ∈ args, a = run_compilation ∨ a = stop_compilation) :
    (∀ r ∈ (run_set_calls args s).1, r = false) ∧
      (run_set_calls args s).2 = s ∧
      is_compilation_disabled_forever (run_set_calls args s).2 = true := by
  induction args with
  | nil =>
    refine ⟨by simp [run_set_calls], by simp [run_set_calls], ?_⟩
    simp [run_set_calls, is_compilation_disabled_forever, hs]
  | cons a rest ih =>
    have ha := hargs a (List.mem_cons_self a rest)
    have hrest : ∀ b ∈ rest, b = run_compilation ∨ b = stop_compilation :=
      fun b hb => hargs b (List.mem_cons_of_mem a hb)
    obtain ⟨h1, h2, h3⟩ := ih hrest
    have hset := set_call_from_shutdown a s hs ha
    refine ⟨?_, ?_, ?_⟩
    · intro r hr
      simp only [run_set_calls, hset] at hr
      rcases List.mem_cons.mp hr with h | h
      · exact h
      · exact h1 r h
    · simp only [run_set_calls, hset]
      exact h2
    · simp only [run_set_calls, hset]
      exact h3

theorem shutdown_is_terminal_witness :
    (⟨shutdown_compilation, 0, 0, 0, true⟩ :
        BrokerState)._should_compile_new_jobs = shutdown_compilation ∧
    (∀ r ∈ (run_set_calls [run_compilation, stop_compilation]
        ⟨shutdown_compilation, 0, 0, 0, true⟩).1, r = false) ∧
    is_compilation_disabled_forever
      (run_set_calls [run_compilation, stop_compilation]
        ⟨shutdown_compilation, 0, 0, 0, true⟩).2 = true := by
  have h := shutdown_is_terminal ⟨shutdown_compilation, 0, 0, 0, true⟩ rfl
    [run_compilation, stop_compilation] (by decide)
  exact ⟨rfl, h.1, h.2.2⟩

/-- C4: `set_should_compile_new_jobs` is idempotent and never
double-counts: for every starting state and argument, the second of two
successive calls with the same argument returns `false` and leaves the
whole broker state unchanged; a call that returns `false` changes nothing
(in particular neither statistics counter), and a call that returns `true`
increments exactly one of `_total_compiler_restarted_count` /
`_total_compiler_stopped_count` by one. -/
theorem set_admission_idempotent (s : BrokerState) (a : Int) :
    ((set_should_compile_new_jobs a
        (set_should_compile_new_jobs a s).2).1 = false ∧
      (set_should_compile_new_jobs a
        (set_should_compile_new_jobs a s).2).2 =
        (set_should_compile_new_jobs a s).2) ∧
    ((set_should_compile_new_jobs a s).1 = false →
      (set_should_compile_new_jobs a s).2 = s) ∧
    ((set_should_compile_new_jobs a s).1 = true →
      (set_should_compile_new_jobs a s).2._total_compiler_restarted_count +
        (set_should_compile_new_jobs a s).2._total_compiler_stopped_count =
        s._total_compiler_restarted_count +
          s._total_compiler_stopped_count + 1) := by
  by_cases h1 : s._should_compile_new_jobs = 1 - a
  · have hne : ¬ (a = 1 - a) := by omega
    by_cases h2 : a = 1 <;>
      simp [set_should_compile_new_jobs, run_compilation, h1, h2, hne] <;>
      omega
  · simp [set_should_compile_new_jobs, h1]

theorem set_admission_idempotent_witness :
    (set_should_compile_new_jobs run_compilation
      (set_should_compile_new_jobs run_compilation
        ⟨stop_compilation, 0, 0, 0, true⟩).2).1 = false ∧
    (set_should_compile_new_jobs run_compilation
      ⟨stop_compilation, 0, 0, 0, true⟩).1 = true ∧
    (set_should_compile_new_jobs run_compilation
      ⟨stop_compilation, 0, 0, 0,
        true⟩).2._total_compiler_restarted_count = 1 := by
  have h := set_admission_idempotent ⟨stop_compilation, 0, 0, 0, true⟩
    run_compilation
  exact ⟨h.1.1, by decide, by decide⟩

theorem warning_calls_after_set (n : Nat) (s : BrokerState)
    (h : s._print_compilation_warning ≠ 0) :
    run_warning_calls n s = (List.replicate n false, s) := by
  induction n with
  | zero => simp [run_warning_calls]
  | succ m ih =>
    simp [run_warning_calls, should_print_compiler_warning, h, ih,
      List.replicate_succ]

/-- C9: at most one call of `should_print_compiler_warning()` returns
`true`: starting from the zero-initialized `_print_compilation_warning`,
the first of `n + 1` successive (linearized) calls flips the flag from `0`
to `1` and returns `true`, and every later call returns `false`. -/
theorem warning_printed_once (s : BrokerState) (n : Nat)
    (h0 : s._print_compilation_warning = 0) :
    (run_warning_calls (n + 1) s).1 = true :: List.replicate n false ∧
      (run_warning_calls (n + 1) s).2._print_compilation_warning = 1 := by
  have hstep : should_print_compiler_warning s =
      (true, { s with _print_compilation_warning := 1 }) := by
    simp [should_print_compiler_warning, h0]
  have hrest := warning_calls_after_set n
    { s with _print_compilation_warning := 1 } (by simp)
  constructor
  · simp [run_warning_calls, hstep, hrest]
  · simp [run_warning_calls, hstep, hrest]

theorem warning_printed_once_witness :
    ((⟨run_compilation, 0, 0, 0, true⟩ :
        BrokerState)._print_compilation_warning = 0) ∧
    (run_warning_calls 3
      ⟨run_compilation, 0, 0, 0, true⟩).1 = [true, false, false] := by
  have h := warning_printed_once ⟨run_compilation, 0, 0, 0, true⟩ 2 rfl
  exact ⟨rfl, by rw [h.1]; rfl⟩

/-- `CompileQueue`: only the `_size` counter matters for `queue_size`. -/
structure CompileQueue where
  _size : Int
  _peak_size : Int
  deriving DecidableEq, Repr

/-- `CompileQueue::size()`: `return _size;`. -/
def CompileQueue.size (q : CompileQueue) : Int := q._size

/-- `CompileBroker::queue_size(comp_level, is_scc)`:
```
CompileQueue *q = compile_queue(comp_level, is_scc);
return q != nullptr ? q->size() : 0;
```
The private tier-to-queue selection `compile_queue` is defined in
`compileBroker.cpp` (outside this excerpt), so it is taken as an arbitrary
function from tier and SCC flag to an optional queue. -/
def queue_size (compile_queue : Int → Bool → Option CompileQueue)
    (comp_level : Int) (is_scc : Bool) : Int :=
  match compile_queue comp_level is_scc with
  | some q => q.size
  | none => 0

/-- C7: `queue_size(comp_level, is_scc)` returns the `_size` counter of the
queue selected by `compile_queue` for that tier, and returns `0` whenever
no queue is configured for the tier (`compile_queue` returns null); being a
total function, it never faults on an absent tier. -/
theorem queue_size_spec (compile_queue : Int → Bool → Option CompileQueue)
    (comp_level : Int) (is_scc : Bool) :
    (∀ q, compile_queue comp_level is_scc = some q →
      queue_size compile_queue comp_level is_scc = q.size) ∧
    (compile_queue comp_level is_scc = none →
      queue_size compile_queue comp_level is_scc = 0) := by
  constructor
  · intro q hq
    simp [queue_size, hq]
  · intro hq
    simp [queue_size, hq]

theorem queue_size_spec_witness :
    queue_size (fun _ _ => some ⟨7, 9⟩) 1 false = 7 ∧
      queue_size (fun _ _ => none) 4 true = 0 :=
  ⟨(queue_size_spec (fun _ _ => some ⟨7, 9⟩) 1 false).1 ⟨7, 9⟩ rfl,
    (queue_size_spec (fun _ _ => none) 4 true).2 rfl⟩

end CompileBroker

namespace Nmethod

/-- Install states of an nmethod, `{not_installed, in_use, not_used,
not_entrant}`. Modelled from the spec: the enumerators live in
`compiledMethod.hpp` (outside this excerpt); their numeric order is fixed
by the header's declaration order, by `is_in_use()` testing
`_state <= in_use`, and by the spec's monotonic lattice
`not_installed → in_use → {not_used, not_entrant}`. -/
def not_installed : Int := -1

def in_use : Int := 0

def not_used : Int := 1

def not_entrant : Int := 2

/-- The mutable nmethod fields touched by the lifecycle operations of
`nmethod.hpp`: the install state, the unlinked flag, the
flushed-dependencies flag and the OSR sibling link. -/
structure NMethod where
  _state : Int
  _is_unlinked : Bool
  _has_flushed_dependencies : Bool
  _osr_link : Option Nat
  deriving DecidableEq, Repr

/-- `nmethod::try_transition(signed char new_state)`. Modelled from the
spec: the body lives in `nmethod.cpp` (outside this excerpt); per §4.4 it
is a single atomic compare-and-swap on `_state` that only ever moves the
state forward along the monotonic order and reports whether this caller
performed the transition. -/
def try_transition (nm : NMethod) (new_state : Int) : Bool × NMethod :=
  if nm._state < new_state then
    (true, { nm with _state := new_state })
  else
    (false, nm)

/-- `nmethod::make_in_use()`: `return try_transition(in_use);`. -/
def make_in_use (nm : NMethod) : Bool × NMethod :=
  try_transition nm in_use

/-- `nmethod::make_not_entrant(bool make_not_entrant = true)`. Modelled
from the spec: the body lives in `nmethod.cpp`; it retires the artifact to
`not_entrant`, or to `not_used` when called with `false` (the header's
`make_not_used()` is `return make_not_entrant(false);`). -/
def make_not_entrant (nm : NMethod) (flag : Bool) : Bool × NMethod :=
  try_transition nm (if flag then not_entrant else not_used)

/-- `nmethod::make_not_used()`: `return make_not_entrant(false);`. -/
def make_not_used (nm : NMethod) : Bool × NMethod :=
  make_not_entrant nm false

/-- `nmethod::is_unlinked()`: `return _is_unlinked;`. -/
def is_unlinked (nm : NMethod) : Bool := nm._is_unlinked

/-- The condition asserted on entry to `nmethod::set_is_unlinked()`:
`assert(!_is_unlinked, "already unlinked");`. -/
def set_is_unlinked_requires (nm : NMethod) : Prop :=
  nm._is_unlinked = false

/-- `nmethod::set_is_unlinked()`: `_is_unlinked = true;` (after the
assert). -/
def set_is_unlinked (nm : NMethod) : NMethod :=
  { nm with _is_unlinked := true }

/-- `nmethod::set_has_flushed_dependencies()`:
`_has_flushed_dependencies = 1;` (after its own one-shot assert). -/
def set_has_flushed_dependencies (nm : NMethod) : NMethod :=
  { nm with _has_flushed_dependencies := true }

/-- `nmethod::set_osr_link(nmethod* n)`: `_osr_link = n;`. -/
def set_osr_link (nm : NMethod) (link : Option Nat) : NMethod :=
  { nm with _osr_link := link }

/-- The header-visible operations that mutate the lifecycle fields of an
nmethod. -/
inductive NMethodOp
  | tryTransition (new_state : Int)
  | makeInUse
  | makeNotEntrant (flag : Bool)
  | makeNotUsed
  | setIsUnlinked
  | setHasFlushedDependencies
  | setOsrLink (link : Option Nat)
  deriving DecidableEq, Repr

/-- Effect of one operation on the nmethod (the returned boolean of the
transition helpers is dropped). -/
def applyOp (op : NMethodOp) (nm : NMethod) : NMethod :=
  match op with
  | .tryTransition s => (try_transition nm s).2
  | .makeInUse => (make_in_use nm).2
  | .makeNotEntrant flag => (make_not_entrant nm flag).2
  | .makeNotUsed => (make_not_used nm).2
  | .setIsUnlinked => set_is_unlinked nm
  | .setHasFlushedDependencies => set_has_flushed_dependencies nm
  | .setOsrLink link => set_osr_link nm link

def applyOps (ops : List NMethodOp) (nm : NMethod) : NMethod :=
  ops.foldl (fun nm op => applyOp op nm) nm

/-- `try_transition` is only ever called with one of the four install
states as its argument. -/
def validOp : NMethodOp → Prop
  | .tryTransition s =>
      s = not_installed ∨ s = in_use ∨ s = not_used ∨ s = not_entrant
  | _ => True

instance : DecidablePred validOp := by
  intro op
  cases op <;> simp [validOp] <;> infer_instance

theorem try_transition_snd_state (nm : NMethod) (s : Int) :
    (try_transition nm s).2._state =
      if nm._state < s then s else nm._state := by
  unfold try_transition
  split <;> simp_all

theorem try_transition_snd_unlinked (nm : NMethod) (s : Int) :
    (try_transition nm s).2._is_unlinked = nm._is_unlinked := by
  unfold try_transition
  split <;> rfl

theorem applyOp_state_mono (op : NMethodOp) (nm : NMethod)
    (h : validOp op) :
    nm._state ≤ (applyOp op nm)._state ∧
      (nm._state = not_entrant → (applyOp op nm)._state = not_entrant) := by
  have key : ∀ s : Int, s ≤ 2 →
      nm._state ≤ (try_transition nm s).2._state ∧
      (nm._state = not_entrant → (try_transition nm s).2._state =
        not_entrant) := by
    intro s hs
    rw [try_transition_snd_state]
    simp only [not_entrant]
    split_ifs with hlt
    · exact ⟨le_of_lt hlt, fun he => by omega⟩
    · exact ⟨le_refl _, fun he => he⟩
  cases op with
  | tryTransition s =>
    refine key s ?_
    rcases h with h | h | h | h <;>
      simp [h, not_installed, in_use, not_used, not_entrant]
  | makeInUse => exact key in_use (by simp [in_use])
  | makeNotEntrant flag =>
    exact key (if flag then not_entrant else not_used)
      (by cases flag <;> simp [not_used, not_entrant])
  | makeNotUsed => exact key not_used (by simp [not_used])
  | setIsUnlinked => simp [applyOp, set_is_unlinked]
  | setHasFlushedDependencies => simp [applyOp, set_has_flushed_dependencies]
  | setOsrLink link => simp [applyOp, set_osr_link]

/-- C2: the install state is monotonic: under any sequence of
`try_transition` / `make_in_use` / `make_not_entrant` / `make_not_used`
calls (with install-state arguments), the state never decreases along the
order `not_installed < in_use < not_used, not_entrant`; in particular an
nmethod that has left `in_use` (state in `{not_used, not_entrant}`) never
returns to `in_use`, and `not_entrant` is absorbing. -/
theorem install_state_monotonic (nm : NMethod) (ops : List NMethodOp)
    (hops : ∀ op ∈ ops, validOp op) :
    nm._state ≤ (applyOps ops nm)._state ∧
      (in_use < nm._state → (applyOps ops nm)._state ≠ in_use) ∧
      (nm._state = not_entrant → (applyOps ops nm)._state = not_entrant) := by
  induction ops generalizing nm with
  | nil =>
    refine ⟨le_refl _, fun h => ?_, fun h => h⟩
    simp only [applyOps, List.foldl_nil]
    omega
  | cons op rest ih =>
    have hop := applyOp_state_mono op nm (hops op (List.mem_cons_self op rest))
    have hrest := ih (applyOp op nm)
      (fun o ho => hops o (List.mem_cons_of_mem op ho))
    have hfold : applyOps (op :: rest) nm = applyOps rest (applyOp op nm) := by
      simp [applyOps]
    rw [hfold]
    refine ⟨le_trans hop.1 hrest.1, fun h => ?_, fun h => hrest.2.2 (hop.2 h)⟩
    have : in_use < (applyOp op nm)._state := lt_of_lt_of_le h hop.1
    exact hrest.2.1 this

theorem install_state_monotonic_witness :
    (∀ op ∈ ([.makeInUse, .tryTransition in_use, .makeNotUsed,
        .makeNotEntrant true, .makeInUse] : List NMethodOp), validOp op) ∧
    (applyOps [.makeInUse, .tryTransition in_use, .makeNotUsed,
        .makeNotEntrant true, .makeInUse]
      ⟨not_entrant, false, false, none⟩)._state = not_entrant := by
  have h := install_state_monotonic ⟨not_entrant, false, false, none⟩
    [.makeInUse, .tryTransition in_use, .makeNotUsed,
      .makeNotEntrant true, .makeInUse] (by decide)
  exact ⟨by decide, h.2.2 rfl⟩

theorem applyOp_unlinked_mono (op : NMethodOp) (nm : NMethod)
    (h : nm._is_unlinked = true) : (applyOp op nm)._is_unlinked = true := by
  cases op with
  | tryTransition s => rw [show applyOp (.tryTransition s) nm =
      (try_transition nm s).2 from rfl, try_transition_snd_unlinked]; exact h
  | makeInUse => rw [show applyOp .makeInUse nm =
      (try_transition nm in_use).2 from rfl, try_transition_snd_unlinked]
                 exact h
  | makeNotEntrant flag =>
    rw [show applyOp (.makeNotEntrant flag) nm =
      (try_transition nm (if flag then not_entrant else not_used)).2 from rfl,
      try_transition_snd_unlinked]
    exact h
  | makeNotUsed => rw [show applyOp .makeNotUsed nm =
      (try_transition nm not_used).2 from rfl, try_transition_snd_unlinked]
                   exact h
  | setIsUnlinked => simp [applyOp, set_is_unlinked]
  | setHasFlushedDependencies =>
    simp [applyOp, set_has_flushed_dependencies, h]
  | setOsrLink link => simp [applyOp, set_osr_link, h]

/-- C10: the unlinked flag is set at most once and is monotone:
`set_is_unlinked` asserts `!is_unlinked()` on entry and sets the flag to
`true`; no header-visible operation ever resets `_is_unlinked`, so once
`is_unlinked()` returns `true` it returns `true` after any further
operation sequence — in particular the assert of any later
`set_is_unlinked` call is violated. -/
theorem unlinked_flag_monotone (nm : NMethod) (ops : List NMethodOp) :
    is_unlinked (set_is_unlinked nm) = true ∧
      (is_unlinked nm = true → is_unlinked (applyOps ops nm) = true) ∧
      ¬ set_is_unlinked_requires (applyOps ops (set_is_unlinked nm)) := by
  have hmono : ∀ (ops : List NMethodOp) (m : NMethod),
      m._is_unlinked = true → (applyOps ops m)._is_unlinked = true := by
    intro ops
    induction ops with
    | nil => intro m h; simpa [applyOps] using h
    | cons op rest ih =>
      intro m h
      have hfold : applyOps (op :: rest) m = applyOps rest (applyOp op m) := by
        simp [applyOps]
      rw [hfold]
      exact ih _ (applyOp_unlinked_mono op m h)
  refine ⟨rfl, fun h => hmono ops nm h, fun hreq => ?_⟩
  have htrue := hmono ops (set_is_unlinked nm) rfl
  unfold set_is_unlinked_requires at hreq
  rw [htrue] at hreq
  exact absurd hreq (by decide)

theorem unlinked_flag_monotone_witness :
    is_unlinked (set_is_unlinked ⟨in_use, false, false, none⟩) = true ∧
      is_unlinked (applyOps [.makeNotEntrant true, .setHasFlushedDependencies]
        ⟨in_use, true, false, none⟩) = true := by
  have h := unlinked_flag_monotone ⟨in_use, false, false, none⟩ []
  have h2 := unlinked_flag_monotone ⟨in_use, true, false, none⟩
    [.makeNotEntrant true, .setHasFlushedDependencies]
  exact ⟨h.1, h2.2.1 rfl⟩

/-- `oopSize` (= `wordSize`) in bytes on the 64-bit targets. -/
def oopSize : Int := 8

def wordSize : Int := 8

/-- The layout fields of an nmethod that determine the embedded oop and
metadata tables: the header address and the offsets
(`oops_begin/oops_end/metadata_begin/metadata_end` of `nmethod.hpp`).
Addresses are byte addresses modelled as integers. -/
structure NMethodLayout where
  header_begin : Int
  _oops_offset : Int
  _metadata_offset : Int
  _scopes_data_begin : Int
  deriving DecidableEq, Repr

/-- `oops_begin()`: `(oop*)(header_begin() + _oops_offset)`. -/
def oops_begin (l : NMethodLayout) : Int := l.header_begin + l._oops_offset

/-- `oops_end()`: `(oop*)(header_begin() + _metadata_offset)`. -/
def oops_end (l : NMethodLayout) : Int := l.header_begin + l._metadata_offset

/-- `metadata_begin()`: `(Metadata**)(header_begin() + _metadata_offset)`. -/
def metadata_begin (l : NMethodLayout) : Int :=
  l.header_begin + l._metadata_offset

/-- `metadata_end()`: `(Metadata**)_scopes_data_begin`. -/
def metadata_end (l : NMethodLayout) : Int := l._scopes_data_begin

/-- `oops_size()`: `int((address)oops_end() - (address)oops_begin())`. -/
def oops_size (l : NMethodLayout) : Int := oops_end l - oops_begin l

/-- `metadata_size()`:
`int((address)metadata_end() - (address)metadata_begin())`. -/
def metadata_size (l : NMethodLayout) : Int :=
  metadata_end l - metadata_begin l

/-- `oops_count()`: `(oops_size() / oopSize) + 1` (after the
`oops_size() % oopSize == 0` assert). -/
def oops_count (l : NMethodLayout) : Int := oops_size l / oopSize + 1

/-- `metadata_count()`: `(metadata_size() / wordSize) + 1`. -/
def metadata_count (l : NMethodLayout) : Int :=
  metadata_size l / wordSize + 1

/-- `oops_contains(oop* addr)`:
`oops_begin() <= addr && addr < oops_end()`. -/
def oops_contains (l : NMethodLayout) (addr : Int) : Prop :=
  oops_begin l ≤ addr ∧ addr < oops_end l

instance (l : NMethodLayout) (addr : Int) :
    Decidable (oops_contains l addr) := by
  unfold oops_contains; infer_instance

/-- `metadata_contains(Metadata** addr)`. -/
def metadata_contains (l : NMethodLayout) (addr : Int) : Prop :=
  metadata_begin l ≤ addr ∧ addr < metadata_end l

instance (l : NMethodLayout) (addr : Int) :
    Decidable (metadata_contains l addr) := by
  unfold metadata_contains; infer_instance

/-- `oop_addr_at(int index)`: `&oops_begin()[index - 1]`, i.e. the byte
address `oops_begin() + oopSize * (index - 1)` (the asserted precondition
is `index > 0 && index <= oops_count()`). -/
def oop_addr_at (l : NMethodLayout) (index : Int) : Int :=
  oops_begin l + oopSize * (index - 1)

/-- `metadata_addr_at(int index)`: `&metadata_begin()[index - 1]` (the
asserted precondition is `index > 0 && index <= metadata_count()`). -/
def metadata_addr_at (l : NMethodLayout) (index : Int) : Int :=
  metadata_begin l + wordSize * (index - 1)

/-- C8 counterexample: a well-formed layout (one 8-byte oop slot at
16..24, two metadata slots at 24..40, both sizes divisible by the slot
size) on which the asserted precondition `0 < index ∧ index ≤ oops_count()`
admits `index = oops_count() = 2`, yet `oop_addr_at` then returns
`oops_end()` itself, which fails `oops_contains`; likewise
`metadata_addr_at` at `index = metadata_count() = 3` fails
`metadata_contains`. So the claim as stated is false. -/
theorem oop_addr_at_bound_counterexample :
    (oops_size ⟨0, 16, 24, 40⟩ % oopSize = 0 ∧
      metadata_size ⟨0, 16, 24, 40⟩ % wordSize = 0) ∧
    (0 < (2 : Int) ∧ 2 ≤ oops_count ⟨0, 16, 24, 40⟩) ∧
    ¬ oops_contains ⟨0, 16, 24, 40⟩ (oop_addr_at ⟨0, 16, 24, 40⟩ 2) ∧
    (0 < (3 : Int) ∧ 3 ≤ metadata_count ⟨0, 16, 24, 40⟩) ∧
    ¬ metadata_contains ⟨0, 16, 24, 40⟩
      (metadata_addr_at ⟨0, 16, 24, 40⟩ 3) := by
  decide

theorem size_div_slot (a k : Int) (h : a = 8 * k) : a / 8 + 1 = k + 1 := by
  subst h
  rw [Int.mul_ediv_cancel_left _ (by norm_num : (8 : Int) ≠ 0)]

/-- C8 amended: for every index satisfying `0 < index < oops_count()` (the
asserted upper bound tightened from `index ≤ oops_count()` to a strict
inequality, as the counterexample forces), `oop_addr_at(index)` returns
the address of slot `index - 1` from `oops_begin()` and that address lies
strictly inside `[oops_begin(), oops_end())`; the same holds for
`metadata_addr_at` with `metadata_count()` and `metadata_contains`. -/
theorem oop_addr_at_in_range (l : NMethodLayout) (index jndex : Int)
    (hdvd : oopSize ∣ oops_size l) (hdvdm : wordSize ∣ metadata_size l)
    (h1 : 0 < index) (h2 : index < oops_count l)
    (h3 : 0 < jndex) (h4 : jndex < metadata_count l) :
    (oop_addr_at l index = oops_begin l + oopSize * (index - 1) ∧
      oops_contains l (oop_addr_at l index)) ∧
    (metadata_addr_at l jndex =
        metadata_begin l + wordSize * (jndex - 1) ∧
      metadata_contains l (metadata_addr_at l jndex)) := by
  obtain ⟨k, hk⟩ := hdvd
  obtain ⟨m, hm⟩ := hdvdm
  unfold oopSize at hk
  unfold wordSize at hm
  have hc : oops_count l = k + 1 := by
    unfold oops_count oopSize
    exact size_div_slot _ k hk
  have hcm : metadata_count l = m + 1 := by
    unfold metadata_count wordSize
    exact size_div_slot _ m hm
  rw [hc] at h2
  rw [hcm] at h4
  unfold oops_size oops_end at hk
  unfold metadata_size metadata_end at hm
  refine ⟨⟨rfl, ?_, ?_⟩, ⟨rfl, ?_, ?_⟩⟩ <;>
    simp only [oop_addr_at, metadata_addr_at, oops_begin, oops_end,
      metadata_begin, metadata_end, oopSize, wordSize] at hk hm ⊢ <;>
    omega

/-- The logical states of `_oops_do_mark_link` during one marking epoch:
`nullptr` is *Unclaimed*; otherwise the two LSBs carry weak-request (WR),
weak-done (WD), strong-request (SR) or strong-done (SD). -/
inductive MarkState
  | unclaimed
  | weakRequest
  | weakDone
  | strongRequest
  | strongDone
  deriving DecidableEq, Repr

/-- Modelled from the spec: the CAS helper bodies
(`oops_do_try_claim_weak_request`, `oops_do_try_claim_strong_done`,
`oops_do_try_add_to_list_as_weak_done`, `oops_do_try_add_strong_request`,
`oops_do_try_claim_weak_done_as_strong_done`, `oops_do_set_strong_done`)
live in `nmethod.cpp`, outside this excerpt. The state progressions they
implement are fixed by the `_oops_do_mark_link` comment block of
`nmethod.hpp` ("the _only_ possible progressions") and spec §4.5:
`Unclaimed → N|WR → X|WD`, `Unclaimed → N|WR → X|WD → X|SD`,
`Unclaimed → N|WR → N|SR → X|SD`, and `Unclaimed → N|SD → X|SD`. -/
def allowedTransition : MarkState → MarkState → Bool
  | .unclaimed, .weakRequest => true
  | .weakRequest, .weakDone => true
  | .weakRequest, .strongRequest => true
  | .weakDone, .strongDone => true
  | .strongRequest, .strongDone => true
  | .unclaimed, .strongDone => true
  | _, _ => false

/-- One successful CAS on one artifact's `_oops_do_mark_link`, performed
by GC worker thread `tid` (a failed CAS changes nothing and is therefore
not recorded; an interleaving of atomic CAS operations linearizes into
such a list). Artifacts are identified by a `Nat` id. -/
structure ScanStep where
  tid : Nat
  nm : Nat
  src : MarkState
  dst : MarkState
  deriving DecidableEq, Repr

/-- A valid interleaving of successful CAS steps by any set of worker
threads during one marking epoch: each step requires the artifact to
currently hold the step's source state and to follow one of the allowed
progressions. -/
inductive ValidTrace :
    (Nat → MarkState) → List ScanStep → (Nat → MarkState) → Prop
  | nil (σ : Nat → MarkState) : ValidTrace σ [] σ
  | cons (σ : Nat → MarkState) (s : ScanStep) (steps : List ScanStep)
      (σf : Nat → MarkState) (hsrc : σ s.nm = s.src)
      (hok : allowedTransition s.src s.dst = true)
      (rest : ValidTrace (Function.update σ s.nm s.dst) steps σf) :
      ValidTrace σ (s :: steps) σf

/-- The steps that perform the weak portion of processing artifact `nm`:
winning the `Unclaimed → N|WR` weak claim, or claiming
`Unclaimed → N|SD` directly (strong processing work is a superset of weak
processing work, so a from-the-start strong visit performs the weak
portion as part of it). -/
def weakVisits (steps : List ScanStep) (nm : Nat) : Nat :=
  steps.countP (fun s => decide (s.nm = nm ∧ s.src = MarkState.unclaimed))

/-- The steps that perform the strong portion of processing artifact `nm`:
every transition into `strong-done` (upgrade of a weak-done node, the
claimer finishing a strong-request, or a direct strong claim). -/
def strongVisits (steps : List ScanStep) (nm : Nat) : Nat :=
  steps.countP (fun s => decide (s.nm = nm ∧ s.dst = MarkState.strongDone))

/-- How many weak visits an artifact in the given state has absorbed since
the prologue. -/
def wCredit (st : MarkState) : Nat := if st = MarkState.unclaimed then 0 else 1

/-- How many strong visits an artifact in the given state has absorbed
since the prologue. -/
def sCredit (st : MarkState) : Nat := if st = MarkState.strongDone then 1 else 0

theorem credit_step (a b : MarkState) (h : allowedTransition a b = true) :
    wCredit b = (if a = MarkState.unclaimed then 1 else 0) + wCredit a ∧
      sCredit b = (if b = MarkState.strongDone then 1 else 0) + sCredit a := by
  cases a <;> cases b <;> simp_all [allowedTransition, wCredit, sCredit]

theorem visits_credit (σ : Nat → MarkState) (steps : List ScanStep)
    (σf : Nat → MarkState) (h : ValidTrace σ steps σf) (nm : Nat) :
    weakVisits steps nm + wCredit (σ nm) = wCredit (σf nm) ∧
      strongVisits steps nm + sCredit (σ nm) = sCredit (σf nm) := by
  induction h with
  | nil σ => simp [weakVisits, strongVisits]
  | cons σ s steps σf hsrc hok rest ih =>
    obtain ⟨ihw, ihs⟩ := ih
    obtain ⟨hcw, hcs⟩ := credit_step s.src s.dst hok
    by_cases hnm : s.nm = nm
    · subst hnm
      rw [Function.update_same] at ihw ihs
      have hw : weakVisits (s :: steps) s.nm = weakVisits steps s.nm +
          (if s.src = MarkState.unclaimed then 1 else 0) := by
        simp only [weakVisits, List.countP_cons]
        by_cases hu : s.src = MarkState.unclaimed <;> simp [hu]
      have hs2 : strongVisits (s :: steps) s.nm = strongVisits steps s.nm +
          (if s.dst = MarkState.strongDone then 1 else 0) := by
        simp only [strongVisits, List.countP_cons]
        by_cases hd : s.dst = MarkState.strongDone <;> simp [hd]
      rw [hw, hs2, hsrc]
      exact ⟨by omega, by omega⟩
    · rw [Function.update_noteq (Ne.symm hnm)] at ihw ihs
      have hw : weakVisits (s :: steps) nm = weakVisits steps nm := by
        simp [weakVisits, List.countP_cons, hnm]
      have hs2 : strongVisits (s :: steps) nm = strongVisits steps nm := by
        simp [strongVisits, List.countP_cons, hnm]
      rw [hw, hs2]
      exact ⟨ihw, ihs⟩

/-- C1: during one GC cycle, starting from the prologue state in which
every artifact's `_oops_do_mark_link` is *Unclaimed*, any valid
interleaving of successful CAS steps by any set of GC worker threads
processes each artifact at most once at weak strength and at most once at
strong strength; an artifact that has been claimed at all has been weak
processed exactly once; an artifact that ends the cycle at *strong-done*
has been processed exactly once at weak strength and exactly once more at
strong strength, and one that ends at *weak-done* (never upgraded) exactly
once at weak strength and never at strong strength — so when the epilogue
observes every reachable artifact in a done state, none was visited twice
at the same strength and none was left unvisited. -/
theorem concurrent_root_scan_exactly_once (steps : List ScanStep)
    (σf : Nat → MarkState) (nm : Nat)
    (h : ValidTrace (fun _ => MarkState.unclaimed) steps σf) :
    (weakVisits steps nm ≤ 1 ∧ strongVisits steps nm ≤ 1) ∧
      (σf nm ≠ MarkState.unclaimed → weakVisits steps nm = 1) ∧
      (σf nm = MarkState.strongDone →
        weakVisits steps nm = 1 ∧ strongVisits steps nm = 1) ∧
      (σf nm = MarkState.weakDone →
        weakVisits steps nm = 1 ∧ strongVisits steps nm = 0) := by
  have hv := visits_credit _ steps σf h nm
  cases hσ : σf nm <;>
    simp [hσ, wCredit, sCredit] at hv ⊢ <;>
    omega

theorem concurrent_root_scan_exactly_once_witness :
    weakVisits [⟨0, 5, .unclaimed, .weakRequest⟩,
        ⟨0, 5, .weakRequest, .weakDone⟩,
        ⟨1, 5, .weakDone, .strongDone⟩] 5 = 1 ∧
      strongVisits [⟨0, 5, .unclaimed, .weakRequest⟩,
        ⟨0, 5, .weakRequest, .weakDone⟩,
        ⟨1, 5, .weakDone, .strongDone⟩] 5 = 1 := by
  have htrace : ValidTrace (fun _ => MarkState.unclaimed)
      [⟨0, 5, .unclaimed, .weakRequest⟩, ⟨0, 5, .weakRequest, .weakDone⟩,
        ⟨1, 5, .weakDone, .strongDone⟩]
      (Function.update (Function.update (Function.update
        (fun _ => MarkState.unclaimed) 5 .weakRequest) 5 .weakDone)
        5 .strongDone) := by
    refine .cons _ _ _ _ rfl rfl (.cons _ _ _ _ ?_ rfl
      (.cons _ _ _ _ ?_ rfl (.nil _))) <;>
      simp [Function.update]
  have h := concurrent_root_scan_exactly_once _ _ 5 htrace
  exact h.2.2.1 (by simp [Function.update])

theorem oop_addr_at_in_range_witness :
    oopSize ∣ oops_size ⟨0, 16, 32, 48⟩ ∧
      wordSize ∣ metadata_size ⟨0, 16, 32, 48⟩ ∧
      (0 : Int) < 1 ∧ 1 < oops_count ⟨0, 16, 32, 48⟩ ∧
      (0 : Int) < 2 ∧ 2 < metadata_count ⟨0, 16, 32, 48⟩ ∧
      oops_contains ⟨0, 16, 32, 48⟩ (oop_addr_at ⟨0, 16, 32, 48⟩ 1) ∧
      metadata_contains ⟨0, 16, 32, 48⟩
        (metadata_addr_at ⟨0, 16, 32, 48⟩ 2) := by
  have h := oop_addr_at_in_range ⟨0, 16, 32, 48⟩ 1 2 (by decide) (by decide)
    (by decide) (by decide) (by decide) (by decide)
  exact ⟨by decide, by decide, by decide, by decide, by decide, by decide,
    h.1.2, h.2.2⟩

end Nmethod
